import Mathlib

/-!
# Verification of the openai-agent-examples chat dispatcher core

Shallow embedding of the session-context, instruction-templating,
tool-registration and turn-commit logic of the repository
(`6_simple_chat/main.py`, `7_simple_chat_with_apis/main.py`,
`8_simple_chat_with_gradio/main.py`), together with theorems settling the
frozen specification claims.

Strings are embedded as `List Char`; Python `str.replace(old, new)`
(replace every non-overlapping occurrence, scanning left to right, and for
an empty `old` insert `new` before every character and at the end) is
embedded as `pythonReplace`.
-/

/-- Fuel-driven worker for Python `str.replace` with a non-empty pattern:
scan left to right; at each position, if `old` is a prefix of the remaining
suffix, emit `new` and skip `old.length` characters, else keep the head
character.  The fuel is only a structural-recursion device; `replAux`
always supplies enough fuel. -/
def replFuel (old new : List Char) : Nat → List Char → List Char
  | _, [] => []
  | 0, s => s
  | f + 1, c :: cs =>
    if old ≠ [] ∧ List.isPrefixOf old (c :: cs) = true then
      new ++ replFuel old new f ((c :: cs).drop old.length)
    else
      c :: replFuel old new f cs

/-- Python `str.replace` for a non-empty pattern. -/
def replAux (old new s : List Char) : List Char := replFuel old new s.length s

/-- Python `str.replace(old, new)` on embedded strings, including the
empty-pattern case (`"ab".replace("", "-") = "-a-b-"`). -/
def pythonReplace (s old new : List Char) : List Char :=
  if old = [] then new ++ List.flatten (s.map fun c => c :: new)
  else replAux old new s

/-- Does `pat` occur as a contiguous substring of `s`?  (Plain scan.) -/
def hasSubstr (pat : List Char) : List Char → Bool
  | [] => List.isPrefixOf pat []
  | c :: cs => List.isPrefixOf pat (c :: cs) || hasSubstr pat cs

/-! ## Session context (`ChatContext` in `6_simple_chat/main.py` and
`8_simple_chat_with_gradio/main.py`) -/

/-- One chat-history entry, the Python dict `{"role": r, "content": c}`. -/
structure Msg where
  role : List Char
  content : List Char
deriving DecidableEq

/-- `ChatContext` (main.py:19-27 / 26-30): identity fields plus the
mutable history list. -/
structure ChatContext where
  user_id : List Char
  username : List Char
  chat_history : List Msg
deriving DecidableEq

/-- `ChatContext.add_message` (main.py:29-31): append to the history. -/
def add_message (ctx : ChatContext) (role content : List Char) : ChatContext :=
  { ctx with chat_history := ctx.chat_history ++ [⟨role, content⟩] }

/-- The Python slice `chat_history[-max_messages:]` used at main.py:39.
For a non-negative count `k`, Python `l[-k:]` is the whole list when
`k = 0` (since `-0 == 0`) and the last `k` elements otherwise. -/
def lastWindow (l : List Msg) (k : Nat) : List Msg :=
  if k = 0 then l else l.drop (l.length - k)

/-- Role label mapping of main.py:40: `"User" if role == "user" else "System"`. -/
def role_display (r : List Char) : List Char :=
  if r = "user".data then "User".data else "System".data

/-- One formatted history line, `f"{role_display}: {entry['content']}\n"`
(main.py:41). -/
def fmt_entry (e : Msg) : List Char :=
  role_display e.role ++ ": ".data ++ e.content ++ "\n".data

/-- `ChatContext.get_history_text` (main.py:33-43): empty string for an
empty history, else the header `"\nCHAT HISTORY:\n"` followed by one
formatted line per windowed entry, accumulated with `+=`. -/
def get_history_text (hist : List Msg) (max_messages : Nat) : List Char :=
  if hist = [] then []
  else (lastWindow hist max_messages).foldl (fun acc e => acc ++ fmt_entry e)
    "\nCHAT HISTORY:\n".data

/-- The reserved history placeholder token `{{CHAT_HISTORY}}`. -/
def PLACEHOLDER : List Char := "\x7b\x7bCHAT_HISTORY\x7d\x7d".data

/-- The render step of main.py:114-115 / 200-201:
`triage_agent.instructions.replace("{{CHAT_HISTORY}}", history_text)`
with `history_text = ctx.get_history_text()` (default window 5). -/
def renderInstructions (template : List Char) (hist : List Msg) : List Char :=
  pythonReplace template PLACEHOLDER (get_history_text hist 5)

/-- The per-turn render-then-reset cycle applied to the stored
instructions: main.py:114-116 substitutes the history text for the
placeholder and stores the result, and main.py:131-132 string-replaces
that same history text back to the placeholder after the turn. -/
def turn_instruction_cycle (template : List Char) (hist : List Msg) : List Char :=
  let h := get_history_text hist 5
  pythonReplace (pythonReplace template PLACEHOLDER h) h PLACEHOLDER

/-! ## The turn (`process_message`, `8_simple_chat_with_gradio/main.py:195-219`;
the loop body of `6_simple_chat/main.py:110-132` is the same code).

The call to `Runner.run` (the external reasoning engine plus tools) is
modelled by a `runner` function that returns the turn's `final_output`.
No tool defined in this repository ever appends to `chat_history` (each
tool only reads `wrapper.context.username` and returns a string), so the
runner leaves the history untouched. -/

/-- What one completed turn returns: the response, the mutated context,
and the agent's stored instruction string after the end-of-turn reset. -/
structure TurnOutcome where
  response : List Char
  ctx : ChatContext
  instructions : List Char
deriving DecidableEq

/-- `process_message` (main.py:195-219): append the user message, render
the instructions and store them, run the agent, append the system
response, and string-replace the history text back to the placeholder. -/
def process_message (runner : List Msg → List Char → List Char)
    (ctx : ChatContext) (message instructions : List Char) : TurnOutcome :=
  let ctx1 := add_message ctx "user".data message
  let history_text := get_history_text ctx1.chat_history 5
  let instr1 := pythonReplace instructions PLACEHOLDER history_text
  let response := runner ctx1.chat_history message
  let ctx2 := add_message ctx1 "system".data response
  let instr2 := pythonReplace instr1 history_text PLACEHOLDER
  ⟨response, ctx2, instr2⟩

/-- `process_message` when the `Runner.run` call may fail or be cancelled
(`none`): the Python `await` raises, so execution stops after the user
message was already appended (main.py:197) and before the response append
(main.py:214); the partially-updated context and stored instructions are
what remains. -/
def process_message_fallible (runner : List Msg → List Char → Option (List Char))
    (ctx : ChatContext) (message instructions : List Char) :
    Option (List Char) × ChatContext × List Char :=
  let ctx1 := add_message ctx "user".data message
  let history_text := get_history_text ctx1.chat_history 5
  let instr1 := pythonReplace instructions PLACEHOLDER history_text
  match runner ctx1.chat_history message with
  | none => (none, ctx1, instr1)
  | some response =>
    let ctx2 := add_message ctx1 "system".data response
    let instr2 := pythonReplace instr1 history_text PLACEHOLDER
    (some response, ctx2, instr2)

/-! ## Dynamic tool registration
(`8_simple_chat_with_gradio/main.py:144-193`). -/

/-- The only tool value the dynamic registration path can install:
the built-in `get_cat_fact` function (main.py:147-160). -/
inductive CustomTool where
  | get_cat_fact
deriving DecidableEq

/-- The module-level dict `custom_api_tools` (main.py:145), with Python
dict-assignment replacement semantics: insertion conses the new binding
and lookup takes the most recent one. -/
def Registry : Type := List (List Char × CustomTool)

/-- Visibility of a tool name in the registry (Python `registry[name]` /
`name in registry`). -/
def registry_lookup : Registry → List Char → Option CustomTool
  | [], _ => none
  | (k, v) :: rest, n => if k = n then some v else registry_lookup rest n

/-- `register_cat_fact_tool` (main.py:163-165): store `get_cat_fact`
under the fixed key `"cat_fact"` and return the tool. -/
def register_cat_fact_tool (reg : Registry) : Registry × CustomTool :=
  ((("cat_fact".data, CustomTool.get_cat_fact) :: reg : List _),
    CustomTool.get_cat_fact)

/-- A parsed JSON tool descriptor, restricted to the keys that
`register_api_tool_from_config` reads: `name`, `url`, `type`
(`none` = key absent).  `input_schema` is carried to express descriptors
with or without a schema; the source never reads it. -/
structure APIToolConfig where
  name : Option (List Char)
  url : Option (List Char)
  typ : Option (List Char)
  input_schema : Option (List Char)
deriving DecidableEq

/-- Python `str.lower` restricted to ASCII letters (every `type` value the
code compares against is ASCII). -/
def lowerChar (c : Char) : Char :=
  if 'A' ≤ c ∧ c ≤ 'Z' then Char.ofNat (c.toNat + 32) else c

def lowerStr (s : List Char) : List Char := s.map lowerChar

/-- `"Error: API configuration must include 'name' and 'url' fields"`
(main.py:179). -/
def msg_missing_fields : List Char :=
  "Error: API configuration must include \x27name\x27 and \x27url\x27 fields".data

/-- `f"Successfully registered '{config['name']}' API tool"` (main.py:186). -/
def msg_success (name : List Char) : List Char :=
  "Successfully registered \x27".data ++ name ++ "\x27 API tool".data

/-- `f"Error: Unsupported API tool type '{tool_type}'. ..."` (main.py:188). -/
def msg_unsupported (tool_type : List Char) : List Char :=
  "Error: Unsupported API tool type \x27".data ++ tool_type ++
    "\x27. Currently supported types: cat_fact".data

/-- `register_api_tool_from_config` (main.py:168-193) on an
already-parsed descriptor: reject when `name` or `url` is absent; read
`config.get("type", "").lower()`; install `get_cat_fact` for type
`"cat_fact"`; report an unsupported-type error otherwise.  The result is
the returned message together with the registry after the call. -/
def register_api_tool_from_config (config : APIToolConfig) (reg : Registry) :
    List Char × Registry :=
  if config.name = none ∨ config.url = none then
    (msg_missing_fields, reg)
  else
    let tool_type := lowerStr (config.typ.getD [])
    if tool_type = "cat_fact".data then
      (msg_success (config.name.getD []), (register_cat_fact_tool reg).1)
    else
      (msg_unsupported tool_type, reg)

/-! ## The handoff loop of the Turn Dispatcher.

The repository's agents only *declare* their delegates
(`handoffs=[...]`, `6_simple_chat/main.py:84-100`,
`7_simple_chat_with_apis/main.py:199-220`); the loop that executes
handoffs lives in the external `agents` library, not in the sources.  It
is therefore modelled from the spec. -/

/-- Modelled from the spec: what the external reasoning engine returns for
the current handler — a final text or a handoff request to a named
delegate (spec section 4.4, `AwaitingDecision`). -/
inductive TurnDecision where
  | respond (text : List Char)
  | handoff (target : List Char)

/-- Modelled from the spec: the error taxonomy entry for an exceeded hop
count (spec section 7). -/
inductive TurnError where
  | HandoffLoopDetected
deriving DecidableEq

/-- Modelled from the spec: how a dispatched turn ends — a final response
or a terminal error. -/
inductive TurnResult where
  | final (text : List Char)
  | failed (e : TurnError)
deriving DecidableEq

/-- `[s, s+1, ..., s+n-1]`: the consecutive hop-counter values. -/
def hopSeq : Nat → Nat → List Nat
  | _, 0 => []
  | s, n + 1 => s :: hopSeq (s + 1) n

/-- Modelled from the spec: the Turn Dispatcher's handoff loop, which is
not part of the repository sources (spec section 4.4, `HandingOff`): on a
handoff request the hop counter is strictly incremented; if it exceeds
`maxHops` the turn fails with `HandoffLoopDetected` instead of delegating
further, otherwise the loop re-renders with the delegate as current
handler.  Besides the result, the trace of hop-counter values recorded at
each handoff is returned. -/
def dispatchAux (engine : List Char → TurnDecision) (maxHops : Nat) :
    Nat → List Char → TurnResult × List Nat
  | hops, current =>
    match engine current with
    | .respond t => (.final t, [])
    | .handoff d =>
      if h : hops + 1 > maxHops then
        (.failed .HandoffLoopDetected, [hops + 1])
      else
        let r := dispatchAux engine maxHops (hops + 1) d
        (r.1, (hops + 1) :: r.2)
  termination_by hops _ => maxHops + 1 - hops
  decreasing_by omega

/-- Modelled from the spec: one turn's handoff processing, starting from
hop counter `0` at the initial handler (spec section 4.4). -/
def dispatchTurn (engine : List Char → TurnDecision) (maxHops : Nat)
    (start : List Char) : TurnResult × List Nat :=
  dispatchAux engine maxHops 0 start

/-- Modelled from the spec: the configured default maximum hop count
(spec section 4.4, "default small constant, e.g. 8"). -/
def defaultMaxHops : Nat := 8

/-! ## Claim-side reference definitions and concrete fixtures -/

/-- The entry format stated by the spec, without a line terminator:
`<RoleLabel>: <content>`. -/
def fmt_entry_claim (e : Msg) : List Char :=
  role_display e.role ++ ": ".data ++ e.content

/-- Join a list of strings with a separator between adjacent elements
(the spec wording "join with newlines"). -/
def joinSep (sep : List Char) : List (List Char) → List Char
  | [] => []
  | [x] => x
  | x :: y :: t => x ++ sep ++ joinSep sep (y :: t)

/-- The history block exactly as the spec sentence for claim C7 words it:
the formatted entries joined by newlines, preceded by the header line. -/
def history_block_claim (hist : List Msg) (k : Nat) : List Char :=
  "\nCHAT HISTORY:\n".data ++
    joinSep "\n".data ((lastWindow hist k).map fmt_entry_claim)

/-! ## Concrete fixtures used by counterexamples and witnesses -/

def ctx0 : ChatContext := ⟨"id".data, "u".data, []⟩

def msgA : Msg := ⟨"user".data, "a".data⟩

def msgHi : Msg := ⟨"user".data, "hi".data⟩

def templateAB : List Char := "A".data ++ PLACEHOLDER ++ "B".data

/-- A descriptor with `name`, `url` and type `cat_fact` but no
`inputSchema`. -/
def cfgNoSchema : APIToolConfig :=
  ⟨some "Cat Facts API".data, some "u".data, some "cat_fact".data, none⟩

/-- A descriptor missing `name`. -/
def cfgNoName : APIToolConfig :=
  ⟨none, some "u".data, some "cat_fact".data, some "s".data⟩

/-- An adversarial registry/engine whose delegate graph is a self-loop:
every handler hands off to `"a"`. -/
def cyclicEngine : List Char → TurnDecision := fun _ => TurnDecision.handoff "a".data

/-! ## Theorems -/

theorem replFuel_nil (old new : List Char) (f : Nat) :
    replFuel old new f [] = [] := by
  cases f <;> rfl

theorem replFuel_fuel_irrel (old new : List Char) (hold : old ≠ []) :
    ∀ f g s, s.length ≤ f → s.length ≤ g →
      replFuel old new f s = replFuel old new g s := by
  intro f
  induction f with
  | zero =>
    intro g s hf hg
    have : s = [] := List.eq_nil_of_length_eq_zero (Nat.le_zero.mp hf)
    subst this
    simp [replFuel_nil]
  | succ f ih =>
    intro g s hf hg
    match s, g with
    | [], _ => simp [replFuel_nil]
    | c :: cs, 0 => simp at hg
    | c :: cs, g + 1 =>
      simp only [replFuel]
      by_cases h : old ≠ [] ∧ List.isPrefixOf old (c :: cs) = true
      · rw [if_pos h, if_pos h]
        have hlen : ((c :: cs).drop old.length).length ≤ cs.length := by
          have h1 : 1 ≤ old.length := by
            cases old with
            | nil => exact absurd rfl hold
            | cons o os => simp
          simp only [List.length_drop, List.length_cons]
          omega
        have hf' : ((c :: cs).drop old.length).length ≤ f := by
          simp only [List.length_cons] at hf
          omega
        have hg' : ((c :: cs).drop old.length).length ≤ g := by
          simp only [List.length_cons] at hg
          omega
        rw [ih _ _ hf' hg']
      · rw [if_neg h, if_neg h]
        have hf' : cs.length ≤ f := by
          simp only [List.length_cons] at hf
          omega
        have hg' : cs.length ≤ g := by
          simp only [List.length_cons] at hg
          omega
        rw [ih _ _ hf' hg']

theorem replAux_nil (old new : List Char) : replAux old new [] = [] := rfl

/-- Unfolding of `replAux` at a matching position. -/
theorem replAux_pos (old new : List Char) (c : Char) (cs : List Char)
    (hold : old ≠ []) (hpre : List.isPrefixOf old (c :: cs) = true) :
    replAux old new (c :: cs) = new ++ replAux old new ((c :: cs).drop old.length) := by
  have h1 : 1 ≤ old.length := by
    cases old with
    | nil => exact absurd rfl hold
    | cons o os => simp
  unfold replAux
  simp only [List.length_cons, replFuel, if_pos (And.intro hold hpre)]
  congr 1
  apply replFuel_fuel_irrel old new hold
  · simp only [List.length_drop, List.length_cons]
    omega
  · exact Nat.le_refl _

/-- Unfolding of `replAux` at a non-matching position. -/
theorem replAux_neg (old new : List Char) (c : Char) (cs : List Char)
    (hpre : ¬ List.isPrefixOf old (c :: cs) = true) :
    replAux old new (c :: cs) = c :: replAux old new cs := by
  have hcond : ¬ (old ≠ [] ∧ List.isPrefixOf old (c :: cs) = true) := by
    intro h
    exact hpre h.2
  unfold replAux
  simp only [List.length_cons, replFuel, if_neg hcond]

/-- If the pattern does not occur in `s`, Python replace leaves `s` alone. -/
theorem replAux_not_occurs (old new : List Char) :
    ∀ s, hasSubstr old s = false → replAux old new s = s := by
  intro s
  induction s with
  | nil => intro _; rfl
  | cons c cs ih =>
    intro h
    simp only [hasSubstr, Bool.or_eq_false_iff] at h
    rw [replAux_neg old new c cs (by simp [h.1]), ih h.2]

theorem isPrefixOf_append_self : ∀ (l t : List Char), List.isPrefixOf l (l ++ t) = true := by
  intro l
  induction l with
  | nil => intro t; simp [List.isPrefixOf]
  | cons c cs ih =>
    intro t
    simp only [List.cons_append, List.isPrefixOf, beq_self_eq_true, Bool.true_and]
    exact ih t

/-- If the pattern occurs exactly once — `s = A ++ old ++ B`, with no
occurrence starting inside `A` and none inside `B` — Python replace
rewrites exactly that occurrence. -/
theorem replAux_single (old new : List Char) (hold : old ≠ []) :
    ∀ A B, (∀ i, i < A.length → List.isPrefixOf old ((A ++ old ++ B).drop i) = false) →
      hasSubstr old B = false →
      replAux old new (A ++ old ++ B) = A ++ new ++ B := by
  intro A
  induction A with
  | nil =>
    intro B _ hB
    simp only [List.nil_append]
    obtain ⟨o, os, rfl⟩ : ∃ o os, old = o :: os := by
      cases old with
      | nil => exact absurd rfl hold
      | cons o os => exact ⟨o, os, rfl⟩
    rw [List.cons_append, replAux_pos _ new o (os ++ B) hold
      (by rw [← List.cons_append]; exact isPrefixOf_append_self _ B)]
    rw [← List.cons_append, List.drop_left, replAux_not_occurs _ _ B hB]
  | cons a A ih =>
    intro B hA hB
    have h0 : List.isPrefixOf old (a :: (A ++ old ++ B)) = false := by
      have := hA 0 (by simp)
      simpa using this
    have hrest := ih B (fun i hi => by
      have := hA (i + 1) (by simpa using Nat.succ_lt_succ hi)
      simpa using this) hB
    calc replAux old new ((a :: A) ++ old ++ B)
        = replAux old new (a :: (A ++ old ++ B)) := by simp
      _ = a :: replAux old new (A ++ old ++ B) :=
          replAux_neg old new a _ (by simp only [h0, Bool.false_eq_true, not_false_eq_true])
      _ = a :: (A ++ new ++ B) := by rw [hrest]
      _ = (a :: A) ++ new ++ B := by simp

theorem pythonReplace_ne (s old new : List Char) (hold : old ≠ []) :
    pythonReplace s old new = replAux old new s := by
  simp [pythonReplace, hold]

theorem foldl_fmt (l : List Msg) :
    ∀ init : List Char,
      l.foldl (fun acc e => acc ++ fmt_entry e) init = init ++ (l.map fmt_entry).flatten := by
  induction l with
  | nil => intro init; simp
  | cons e l ih =>
    intro init
    simp only [List.foldl_cons, List.map_cons, List.flatten_cons, ih]
    simp [List.append_assoc]

/-- For a non-empty history, `get_history_text` is the header followed by
one formatted line per windowed entry. -/
theorem get_history_text_eq (hist : List Msg) (k : Nat) (h : hist ≠ []) :
    get_history_text hist k =
      "\nCHAT HISTORY:\n".data ++ ((lastWindow hist k).map fmt_entry).flatten := by
  simp [get_history_text, h, foldl_fmt]

theorem fmt_entry_eq_claim (e : Msg) :
    fmt_entry e = fmt_entry_claim e ++ "\n".data := by
  simp [fmt_entry, fmt_entry_claim, List.append_assoc]

theorem flatten_terminated (sep : List Char) :
    ∀ l : List (List Char), l ≠ [] →
      (l.map (· ++ sep)).flatten = joinSep sep l ++ sep := by
  intro l
  induction l with
  | nil => intro h; exact absurd rfl h
  | cons x t ih =>
    intro _
    cases t with
    | nil => simp [joinSep]
    | cons y t' =>
      calc ((x :: y :: t').map (· ++ sep)).flatten
          = (x ++ sep) ++ ((y :: t').map (· ++ sep)).flatten := by simp
        _ = (x ++ sep) ++ (joinSep sep (y :: t') ++ sep) := by rw [ih (by simp)]
        _ = joinSep sep (x :: y :: t') ++ sep := by simp [joinSep, List.append_assoc]

theorem lastWindow_ne_nil (hist : List Msg) (k : Nat) (h : hist ≠ []) :
    lastWindow hist k ≠ [] := by
  unfold lastWindow
  by_cases hk : k = 0
  · simpa [hk] using h
  · rw [if_neg hk]
    have hlen : 0 < hist.length := List.length_pos.mpr h
    have : 0 < (hist.drop (hist.length - k)).length := by
      simp only [List.length_drop]
      omega
    exact List.ne_nil_of_length_pos this

/-! ## Claim theorems -/

/-- C4: for every completed turn, the session history gains exactly two
new entries — first the user's input with role `user`, then the final
response with role `system`, in that order — and nothing else (in
particular no intermediate tool result) is appended. -/
theorem turn_appends_user_then_system
    (runner : List Msg → List Char → List Char) (ctx : ChatContext)
    (message instructions : List Char) :
    (process_message runner ctx message instructions).ctx.chat_history =
      ctx.chat_history ++
        [⟨"user".data, message⟩,
         ⟨"system".data, (process_message runner ctx message instructions).response⟩] := by
  simp [process_message, add_message]

/-- C5 counterexample: a turn whose engine call fails commits only the
user message — the turn fails (`none`), the history has gained exactly one
entry, and that entry is the user message; so the commit is not atomic. -/
theorem failed_turn_partial_commit :
    (process_message_fallible (fun _ _ => none) ctx0 "hi".data "T".data).1 = none ∧
    (process_message_fallible (fun _ _ => none) ctx0 "hi".data "T".data).2.1.chat_history =
      [⟨"user".data, "hi".data⟩] ∧
    (process_message_fallible (fun _ _ => none) ctx0 "hi".data "T".data).2.1.chat_history.length =
      ctx0.chat_history.length + 1 := by
  refine ⟨rfl, rfl, rfl⟩

/-- C5 amended: a turn that fails (or is cancelled) at the engine call
leaves exactly the user message appended to the session history — the user
message is committed before the call and the response only after it, so
the commit is not atomic. -/
theorem failed_turn_leaves_user_message
    (runner : List Msg → List Char → Option (List Char)) (ctx : ChatContext)
    (message instructions : List Char)
    (hfail : runner (ctx.chat_history ++ [⟨"user".data, message⟩]) message = none) :
    (process_message_fallible runner ctx message instructions).2.1.chat_history =
      ctx.chat_history ++ [⟨"user".data, message⟩] := by
  simp [process_message_fallible, add_message, hfail]

theorem failed_turn_leaves_user_message_witness :
    (process_message_fallible (fun _ _ => none) ctx0 "hi".data "T".data).2.1.chat_history =
      ctx0.chat_history ++ [⟨"user".data, "hi".data⟩] :=
  failed_turn_leaves_user_message (fun _ _ => none) ctx0 "hi".data "T".data rfl

/-- C3 counterexample: with window size `0` and a one-entry history the
Python slice `history[-0:]` is the whole history (one entry), not the last
`min(0, 1) = 0` entries. -/
theorem window_zero_not_min :
    (lastWindow [msgA] 0).length ≠ min 0 ([msgA] : List Msg).length := by
  decide

/-- C3 amended: for every history and every *positive* window size `k`,
the window is exactly the last `min(k, len(history))` entries of the
history in their original insertion order (a suffix of the history, so the
history itself is not modified — the embedding is a pure read), and an
empty history yields the empty text (no history block). -/
theorem history_window_spec (hist : List Msg) (k : Nat) (hk : 1 ≤ k) :
    lastWindow hist k = hist.drop (hist.length - min k hist.length) ∧
    (lastWindow hist k).length = min k hist.length ∧
    get_history_text [] k = [] := by
  have hk0 : k ≠ 0 := by omega
  refine ⟨?_, ?_, by simp [get_history_text]⟩
  · rw [lastWindow, if_neg hk0]
    congr 1
    omega
  · rw [lastWindow, if_neg hk0]
    simp only [List.length_drop]
    omega

theorem history_window_spec_witness :
    1 ≤ 2 ∧
    (lastWindow [msgA] 2 = [msgA].drop ([msgA].length - min 2 ([msgA] : List Msg).length) ∧
     (lastWindow [msgA] 2).length = min 2 ([msgA] : List Msg).length ∧
     get_history_text [] 2 = []) :=
  ⟨by decide, history_window_spec [msgA] 2 (by decide)⟩

/-- C8: if a template contains no occurrence of the history placeholder,
rendering returns the template verbatim, whatever the context history. -/
theorem render_no_placeholder_id (template : List Char) (hist : List Msg)
    (h : hasSubstr PLACEHOLDER template = false) :
    renderInstructions template hist = template := by
  have hp : PLACEHOLDER ≠ [] := by decide
  rw [renderInstructions, pythonReplace_ne _ _ _ hp, replAux_not_occurs _ _ _ h]

theorem render_no_placeholder_id_witness :
    hasSubstr PLACEHOLDER "hello".data = false ∧
    renderInstructions "hello".data [msgA] = "hello".data :=
  ⟨by decide, render_no_placeholder_id "hello".data [msgA] (by decide)⟩

theorem dispatchAux_unfold (engine : List Char → TurnDecision) (maxHops hops : Nat)
    (current : List Char) :
    dispatchAux engine maxHops hops current =
      match engine current with
      | .respond t => (.final t, [])
      | .handoff d =>
        if hops + 1 > maxHops then
          (.failed .HandoffLoopDetected, [hops + 1])
        else
          ((dispatchAux engine maxHops (hops + 1) d).1,
            (hops + 1) :: (dispatchAux engine maxHops (hops + 1) d).2) := by
  rw [dispatchAux]
  cases engine current <;> simp

/-- Invariant of the handoff loop: from hop counter `hops ≤ maxHops` the
recorded hop counters are exactly `hops+1, hops+2, ...`, at most
`maxHops + 1 - hops` handoffs happen, and a maximal-length chain ends in
`HandoffLoopDetected`. -/
theorem dispatchAux_props (engine : List Char → TurnDecision) (maxHops : Nat) :
    ∀ fuel hops current, maxHops + 1 - hops ≤ fuel → hops ≤ maxHops →
      (dispatchAux engine maxHops hops current).2 =
        hopSeq (hops + 1) (dispatchAux engine maxHops hops current).2.length ∧
      (dispatchAux engine maxHops hops current).2.length ≤ maxHops + 1 - hops ∧
      ((dispatchAux engine maxHops hops current).2.length = maxHops + 1 - hops →
        (dispatchAux engine maxHops hops current).1 = .failed .HandoffLoopDetected) := by
  intro fuel
  induction fuel with
  | zero =>
    intro hops current hf hh
    omega
  | succ f ih =>
    intro hops current hf hh
    rw [dispatchAux_unfold]
    cases hE : engine current with
    | respond t =>
      refine ⟨rfl, by simp, ?_⟩
      intro habs
      simp at habs
      omega
    | handoff d =>
      dsimp only
      by_cases hgt : hops + 1 > maxHops
      · rw [if_pos hgt]
        refine ⟨by simp [hopSeq],
          by simp only [List.length_cons, List.length_nil]; omega, fun _ => rfl⟩
      · rw [if_neg hgt]
        have hrec := ih (hops + 1) d (by omega) (by omega)
        obtain ⟨ih1, ih2, ih3⟩ := hrec
        refine ⟨?_, ?_, ?_⟩
        · simp only [List.length_cons, hopSeq]
          exact congrArg (List.cons (hops + 1)) ih1
        · simp only [List.length_cons]
          omega
        · intro hlen
          simp only [List.length_cons] at hlen
          exact ih3 (by omega)

/-- C6: for every engine behaviour (including an adversarial delegate
graph with cycles) and every configured maximum, the hop counters recorded
along a turn's handoff chain are exactly `1, 2, 3, ...` (strictly
increasing by one per handoff), the chain makes at most `maxHops + 1`
handoffs — so no chain is unbounded — and a chain that reaches
`maxHops + 1` hops ends with `HandoffLoopDetected` instead of delegating
further.  (Modelled from the spec: the dispatcher loop is executed by the
external `agents` library, not by the repository sources.) -/
theorem handoff_hops_bounded (engine : List Char → TurnDecision) (maxHops : Nat)
    (start : List Char) :
    (dispatchTurn engine maxHops start).2 =
      hopSeq 1 (dispatchTurn engine maxHops start).2.length ∧
    (dispatchTurn engine maxHops start).2.length ≤ maxHops + 1 ∧
    ((dispatchTurn engine maxHops start).2.length = maxHops + 1 →
      (dispatchTurn engine maxHops start).1 = .failed .HandoffLoopDetected) := by
  have h := dispatchAux_props engine maxHops (maxHops + 1) 0 start (by omega) (by omega)
  simpa [dispatchTurn] using h

theorem handoff_hops_bounded_witness :
    (dispatchTurn cyclicEngine defaultMaxHops "a".data).2.length ≤ defaultMaxHops + 1 :=
  (handoff_hops_bounded cyclicEngine defaultMaxHops "a".data).2.1

/-- C7 counterexample: for the one-entry history `[(user, "a")]` the
rendered block is NOT the header followed by the formatted entries joined
by newlines — the code terminates every entry with a newline, so the block
carries a trailing newline that plain joining does not produce. -/
theorem history_block_not_plain_join :
    get_history_text [msgA] 5 ≠ history_block_claim [msgA] 5 := by
  decide

/-- C7 amended: for every non-empty history and every window size, the
rendered history block is the header line followed by the windowed entries
formatted as `<RoleLabel>: <content>` (`user → "User"`, any other role →
`"System"`) joined by newlines *and terminated by a final newline*; and
this block is what rendering substitutes for the placeholder (shown for a
template `A ++ PLACEHOLDER ++ B` whose only placeholder occurrence is the
middle one). -/
theorem history_block_structure (hist : List Msg) (k : Nat) (A B : List Char)
    (h : hist ≠ [])
    (hA : ∀ i, i < A.length →
      List.isPrefixOf PLACEHOLDER ((A ++ PLACEHOLDER ++ B).drop i) = false)
    (hB : hasSubstr PLACEHOLDER B = false) :
    get_history_text hist k = history_block_claim hist k ++ "\n".data ∧
    renderInstructions (A ++ PLACEHOLDER ++ B) hist =
      A ++ get_history_text hist 5 ++ B := by
  have hp : PLACEHOLDER ≠ [] := by decide
  constructor
  · rw [get_history_text_eq hist k h, history_block_claim]
    have hw : lastWindow hist k ≠ [] := lastWindow_ne_nil hist k h
    have hmap : (lastWindow hist k).map fmt_entry
        = ((lastWindow hist k).map fmt_entry_claim).map (· ++ "\n".data) := by
      rw [List.map_map]
      exact List.map_congr_left fun e _ => fmt_entry_eq_claim e
    rw [hmap, flatten_terminated _ _ (by simpa using hw)]
    simp [List.append_assoc]
  · rw [renderInstructions, pythonReplace_ne _ _ _ hp]
    exact replAux_single PLACEHOLDER _ hp A B hA hB

theorem history_block_structure_witness :
    ([msgA] : List Msg) ≠ [] ∧
    (get_history_text [msgA] 3 = history_block_claim [msgA] 3 ++ "\n".data ∧
     renderInstructions ("X".data ++ PLACEHOLDER ++ "Y".data) [msgA] =
       "X".data ++ get_history_text [msgA] 5 ++ "Y".data) :=
  ⟨by decide,
    history_block_structure [msgA] 3 "X".data "Y".data (by decide) (by decide) (by decide)⟩

/-- C9 counterexample: the render-then-reset cycle is not the identity for
every template and context.  With an empty history the history text is the
empty string, and Python `replace("", placeholder)` inserts the
placeholder around every character: the template `"a"` comes back as
`"{{CHAT_HISTORY}}a{{CHAT_HISTORY}}"`. -/
theorem instruction_cycle_not_id :
    turn_instruction_cycle "a".data [] ≠ "a".data := by
  decide

/-- C9 amended: the render-then-reset cycle restores the template provided
the history is non-empty and neither the placeholder nor the rendered
history text collides with the rest of the template: for a template
`A ++ PLACEHOLDER ++ B` in which no other placeholder occurrence starts in
`A` or lies in `B`, and in which the history text occurs nowhere but at
the substituted position, the cycle is the identity. -/
theorem instruction_cycle_id (hist : List Msg) (A B : List Char) (h : hist ≠ [])
    (hA : ∀ i, i < A.length →
      List.isPrefixOf PLACEHOLDER ((A ++ PLACEHOLDER ++ B).drop i) = false)
    (hB : hasSubstr PLACEHOLDER B = false)
    (hA2 : ∀ i, i < A.length →
      List.isPrefixOf (get_history_text hist 5)
        ((A ++ get_history_text hist 5 ++ B).drop i) = false)
    (hB2 : hasSubstr (get_history_text hist 5) B = false) :
    turn_instruction_cycle (A ++ PLACEHOLDER ++ B) hist = A ++ PLACEHOLDER ++ B := by
  have hp : PLACEHOLDER ≠ [] := by decide
  have hh : get_history_text hist 5 ≠ [] := by
    rw [get_history_text_eq hist 5 h]
    intro heq
    exact (by decide : ("\nCHAT HISTORY:\n".data : List Char) ≠ [])
      (List.append_eq_nil.mp heq).1
  show pythonReplace
      (pythonReplace (A ++ PLACEHOLDER ++ B) PLACEHOLDER (get_history_text hist 5))
      (get_history_text hist 5) PLACEHOLDER = A ++ PLACEHOLDER ++ B
  rw [pythonReplace_ne _ _ _ hp, replAux_single PLACEHOLDER _ hp A B hA hB,
    pythonReplace_ne _ _ _ hh, replAux_single _ PLACEHOLDER hh A B hA2 hB2]

theorem instruction_cycle_id_witness :
    turn_instruction_cycle ("I".data ++ PLACEHOLDER ++ "E".data) [msgA] =
      "I".data ++ PLACEHOLDER ++ "E".data :=
  instruction_cycle_id [msgA] "I".data "E".data (by decide) (by decide) (by decide)
    (by decide) (by decide)

/-- C1 (code bug, documented in spec sections 4.2 and 9): the render step
of the source stores the rendered string in the handler's instruction
field (main.py:116 / 202), so after the render step of a turn with a
non-empty history the stored instruction string is the rendered text —
`A ++ <history block> ++ B` — and differs from the canonical template;
the canonical template is *not* left unchanged by the render step. -/
theorem render_step_overwrites_stored_instructions :
    renderInstructions templateAB [msgHi] ≠ templateAB ∧
    renderInstructions templateAB [msgHi] =
      "A".data ++ get_history_text [msgHi] 5 ++ "B".data := by
  exact ⟨by decide, by decide⟩

/-- C2 counterexample: a tool descriptor with `name`, `url` and type
`cat_fact` but *no* `inputSchema` does not fail with an invalid-descriptor
error — registration succeeds (the success message is returned) and the
tool becomes visible in the registry under `"cat_fact"`. -/
theorem register_missing_schema_succeeds :
    cfgNoSchema.input_schema = none ∧
    (register_api_tool_from_config cfgNoSchema ([] : Registry)).1 =
      msg_success "Cat Facts API".data ∧
    registry_lookup (register_api_tool_from_config cfgNoSchema ([] : Registry)).2
      "cat_fact".data = some CustomTool.get_cat_fact := by
  refine ⟨rfl, by decide, by decide⟩

/-- C2 amended: a tool descriptor missing `name` or missing `url` fails
with the invalid-descriptor error message and leaves the registry
unchanged — no tool is visible under any name that was not visible before
the call.  (The source validates `name` and `url`, not `inputSchema`.) -/
theorem register_missing_name_or_url_fails (config : APIToolConfig) (reg : Registry)
    (h : config.name = none ∨ config.url = none) :
    register_api_tool_from_config config reg = (msg_missing_fields, reg) ∧
    ∀ n, registry_lookup (register_api_tool_from_config config reg).2 n =
      registry_lookup reg n := by
  have heq : register_api_tool_from_config config reg = (msg_missing_fields, reg) := by
    rw [register_api_tool_from_config, if_pos h]
  exact ⟨heq, fun n => by rw [heq]⟩

theorem register_missing_name_or_url_fails_witness :
    register_api_tool_from_config cfgNoName ([] : Registry) =
      (msg_missing_fields, ([] : Registry)) :=
  (register_missing_name_or_url_fails cfgNoName ([] : Registry) (Or.inl rfl)).1

/-- C10: a descriptor that passes validation (has `name` and `url`) and
has type `cat_fact` (after lowercasing) is installed under the fixed
registry key `"cat_fact"` regardless of the descriptor's `name`, while the
success message reports the `name` value; a validated descriptor of any
other type leaves the registry unchanged and returns the unsupported-type
error message. -/
theorem register_cat_fact_behaviour (config : APIToolConfig) (reg : Registry)
    (nm u : List Char) (hn : config.name = some nm) (hu : config.url = some u) :
    (lowerStr (config.typ.getD []) = "cat_fact".data →
      register_api_tool_from_config config reg =
        (msg_success nm, (("cat_fact".data, CustomTool.get_cat_fact) :: reg : List _)) ∧
      registry_lookup (register_api_tool_from_config config reg).2 "cat_fact".data =
        some CustomTool.get_cat_fact) ∧
    (lowerStr (config.typ.getD []) ≠ "cat_fact".data →
      register_api_tool_from_config config reg =
        (msg_unsupported (lowerStr (config.typ.getD [])), reg)) := by
  have hcond : ¬ (config.name = none ∨ config.url = none) := by
    simp [hn, hu]
  constructor
  · intro ht
    have heq : register_api_tool_from_config config reg =
        (msg_success nm, (("cat_fact".data, CustomTool.get_cat_fact) :: reg : List _)) := by
      rw [register_api_tool_from_config, if_neg hcond]
      simp only [ht, if_pos rfl, hn, Option.getD_some, register_cat_fact_tool,
        eq_self_iff_true, if_true]
    refine ⟨heq, ?_⟩
    rw [heq]
    simp [registry_lookup]
  · intro ht
    rw [register_api_tool_from_config, if_neg hcond]
    simp only [if_neg ht]

theorem register_cat_fact_behaviour_witness :
    register_api_tool_from_config cfgNoSchema ([] : Registry) =
      (msg_success "Cat Facts API".data,
        (("cat_fact".data, CustomTool.get_cat_fact) :: ([] : Registry) : List _)) :=
  ((register_cat_fact_behaviour cfgNoSchema ([] : Registry) "Cat Facts API".data
    "u".data rfl rfl).1 (by decide)).1
